import Mathlib

/-!
The go-update server: update checks against an extension catalog

A shallow embedding of `extension/extension.go` and `controller/controller.go`,
with a model of the XML methods of `extension/xml.go`, whose code is not among
the sources, written from the specification and `extension/xml_test.go`.

Go strings are embedded as Lean `String`s.  Every byte the code inspects
(`'.'`, the decimal digits, the signs, the brackets) is ASCII, so working on
characters instead of bytes does not change what the code computes.
Go's `int` is embedded as `Int`; the only place where its width matters is the
range check of `strconv.Atoi`, which is modelled for a 64-bit platform.
-/

namespace GoUpdate

/-! ## The Go library functions used by the code -/

/-- Go's `error` interface: `none` is `nil`, `some msg` is an error whose
`Error()` is `msg`. -/
abbrev error := Option String

/-- Worker of `Split`: the pieces of a character list between occurrences of `sep`. -/
def splitChars (sep : Char) : List Char → List (List Char)
  | [] => [[]]
  | c :: cs =>
    if c = sep then [] :: splitChars sep cs
    else
      match splitChars sep cs with
      | [] => [[c]]
      | p :: ps => (c :: p) :: ps

/-- Model of `strings.Split(s, sep)` for a separator of one character: the
substrings of `s` between the separators (one more than there are separators,
so `Split "" sep = [""]`). -/
def Split (s : String) (sep : Char) : List String :=
  (splitChars sep s.data).map String.mk

/-- The bit size of Go's `int` (`strconv.IntSize`) on a 64-bit platform. -/
def intSize : Nat := 64

/-- Value of one decimal digit character. -/
def digitVal (c : Char) : Nat := c.toNat - '0'.toNat

/-- Value of a list of decimal digits, most significant first
(`n = n*10 + digit` as in `strconv`). -/
def digitsValue (cs : List Char) : Nat :=
  cs.foldl (fun n c => n * 10 + digitVal c) 0

/-- Model of `strconv.Atoi(s)`: an optional sign `+` or `-`, then one or more
decimal digits; the value has to fit a signed `intSize`-bit integer.
`none` stands for a returned error (syntax or range), `some n` for `n, nil`. -/
def Atoi (s : String) : Option Int :=
  let cs := s.data
  let neg : Bool := cs.head? = some '-'
  let ds := if cs.head? = some '-' ∨ cs.head? = some '+' then cs.tail else cs
  if ds = [] then none
  else if ds.all Char.isDigit = false then none
  else
    let un := digitsValue ds
    let cutoff := 2 ^ (intSize - 1)
    if neg = false ∧ cutoff ≤ un then none
    else if neg = true ∧ cutoff < un then none
    else some (if neg then -(un : Int) else (un : Int))

/-! ## extension/extension.go -/

/-- Extension represents an extension which is both used in update checks
and responses. -/
structure Extension where
  ID : String := ""
  Version : String := ""
  SHA256 : String := ""
  Title : String := ""
  URL : String := ""
  Blacklisted : Bool := false
  deriving DecidableEq, Repr

/-- Extensions is type for a slice of Extension. -/
abbrev Extensions := List Extension

/-- UpdateRequest represents an extension XML request. -/
abbrev UpdateRequest := List Extension

/-- UpdateResponse represents an extension XML response. -/
abbrev UpdateResponse := List Extension

/-- WebStoreUpdateResponse represents a webstore XML response for a single extension. -/
abbrev WebStoreUpdateResponse := Extension

/-- Contains checks if the specified extension ID is contained in the extensions.
The result is the pair `(foundExtension, err)` the Go function returns. -/
def Contains (extensions : Extensions) (extensionID : String) : Extension × error :=
  match extensions with
  | [] => (({} : Extension), some "no extensions found")
  | extension :: rest =>
    if extension.ID = extensionID then (extension, none)
    else Contains rest extensionID

/-- The statement `part, err := strconv.Atoi(p); if err != nil { part = 0 }`. -/
def atoiOrZero (p : String) : Int :=
  match Atoi p with
  | some part => part
  | none => 0

/-- The loop `for i := range smallerVersionParts { ... }` of `CompareVersions`
followed by its `return 0`: `n` iterations are left and `i` is the loop index.
Since `i` stays below the length of the shorter list, the default of `getD`
is never used. -/
def compareLoop (version1Parts version2Parts : List String) : Nat → Nat → Int
  | 0, _ => 0
  | n + 1, i =>
    let part1 := atoiOrZero (version1Parts.getD i "")
    let part2 := atoiOrZero (version2Parts.getD i "")
    if part1 < part2 then -1
    else if part2 < part1 then 1
    else compareLoop version1Parts version2Parts n (i + 1)

/-- CompareVersions compares 2 versions:
returns 0 if both versions are the same,
returns 1 if version1 is more recent,
returns -1 if version2 is more recent. -/
def CompareVersions (version1 : String) (version2 : String) : Int :=
  let version1Parts := Split version1 '.'
  let version2Parts := Split version2 '.'
  let smallerVersionParts :=
    if version1Parts.length < version2Parts.length then version1Parts else version2Parts
  compareLoop version1Parts version2Parts smallerVersionParts.length 0

/-- FilterForUpdates filters `extensions` down to only the extensions that are
being checked, and only the ones that we have updates for.  The loop over the
request is a left fold whose accumulator is `filteredExtensions`. -/
def FilterForUpdates (extensions : Extensions) (updateRequest : UpdateRequest) :
    UpdateResponse :=
  updateRequest.foldl
    (fun filteredExtensions extensionBeingChecked =>
      let (foundExtension, err) := Contains extensions extensionBeingChecked.ID
      if err = none then
        if foundExtension.Blacklisted = false ∧
            CompareVersions extensionBeingChecked.Version foundExtension.Version < 0 then
          filteredExtensions ++ [foundExtension]
        else filteredExtensions
      else filteredExtensions)
    []

/-! ## controller/controller.go -/

/-- Model of `url.Values` (`map[string][]string`) as an association list. -/
abbrev Values := List (String × List String)

/-- Model of `Values.Get`: the first value associated with the key, or the
empty string when the key has no values. -/
def Values.Get (v : Values) (key : String) : String :=
  match v.lookup key with
  | some (first :: _) => first
  | _ => ""

/-- Model of `strings.Trim(s, cutset)`: `s` without its leading and trailing
characters that are contained in `cutset`. -/
def Trim (s : String) (cutset : String) : String :=
  String.mk
    (((s.data.dropWhile (fun c => decide (c ∈ cutset.data))).reverse.dropWhile
      (fun c => decide (c ∈ cutset.data))).reverse)

/-- `http.StatusOK`. -/
def StatusOK : Nat := 200

/-- `http.StatusTemporaryRedirect`. -/
def StatusTemporaryRedirect : Nat := 307

/-- `http.StatusBadRequest`. -/
def StatusBadRequest : Nat := 400

/-- `http.StatusInternalServerError`. -/
def StatusInternalServerError : Nat := 500

/-- What a handler reads from its `*http.Request`. -/
structure Request where
  /-- The value of `r.FormValue("x")`. -/
  FormX : String := ""
  /-- The value of `r.URL.RawQuery`. -/
  RawQuery : String := ""
  /-- The result of `ioutil.ReadAll(r.Body)`. -/
  Body : Except String String := .ok ""

/-- The decoding and encoding functions the handlers call and whose code is
outside the two source files: `url.QueryUnescape`, `url.ParseQuery`, and
`xml.Unmarshal` / `xml.Marshal` at the three document types.  An error is
given by its message. -/
structure Codec where
  QueryUnescape : String → Except String String
  ParseQuery : String → Except String Values
  UnmarshalRequest : String → Except String UpdateRequest
  MarshalResponse : UpdateResponse → Except String String
  MarshalWebStore : WebStoreUpdateResponse → Except String String

/-- The calls a handler makes on its `http.ResponseWriter`, in order. -/
inductive Effect where
  /-- The call `http.Error(w, msg, code)`. -/
  | Error (msg : String) (code : Nat)
  /-- The call `http.Redirect(w, r, url, code)`. -/
  | Redirect (url : String) (code : Nat)
  /-- The call `w.Header().Set(key, value)`. -/
  | HeaderSet (key value : String)
  /-- The call `w.WriteHeader(code)`. -/
  | WriteHeader (code : Nat)
  /-- The call `w.Write(data)`. -/
  | Write (data : String)
  deriving DecidableEq, Repr

/-- The common end of both handlers (lines 71-81 and 115-126): the content type
and status 200 are set, then the marshalled document is written, or
`http.Error` is called when marshalling failed. -/
def writeXML (marshalled : Except String String) : List Effect :=
  [Effect.HeaderSet "content-type" "application/xml", Effect.WriteHeader StatusOK] ++
    match marshalled with
    | .error err => [Effect.Error ("Error in marshal XML " ++ err) StatusInternalServerError]
    | .ok data => [Effect.Write data]

/-- WebStoreUpdateExtension is the handler for updating a single extension made
via the GET HTTP method.  The query parameter x contains the encoded extension
information. -/
def WebStoreUpdateExtension (lib : Codec) (allExtensions : Extensions) (r : Request) :
    List Effect :=
  let x := r.FormX
  match lib.QueryUnescape x with
  | .error err =>
    [Effect.Error ("Error unescaping query parameters: " ++ err) StatusBadRequest]
  | .ok unescaped =>
    match lib.ParseQuery unescaped with
    | .error err =>
      [Effect.Error ("Error parsing query parameters: " ++ err) StatusBadRequest]
    | .ok values =>
      let id := Trim (values.Get "id") "[]"
      let v := values.Get "v"
      if id.length = 0 then
        [Effect.Error "No extension ID specified." StatusBadRequest]
      else
        let webStoreResponse : WebStoreUpdateResponse := {}
        let (foundExtension, err) := Contains allExtensions id
        if err ≠ none then
          [Effect.Redirect
            ("https://clients2.google.com/service/update2/crx?" ++ r.RawQuery ++
              "&braveRedirect=true")
            StatusTemporaryRedirect]
        else
          let webStoreResponse :=
            if CompareVersions v foundExtension.Version < 0 then
              { webStoreResponse with
                ID := foundExtension.ID
                Version := foundExtension.Version
                SHA256 := foundExtension.SHA256 }
            else webStoreResponse
          writeXML (lib.MarshalWebStore webStoreResponse)

/-- UpdateExtensions is the handler for updating extensions. -/
def UpdateExtensions (lib : Codec) (allExtensions : Extensions) (r : Request) :
    List Effect :=
  match r.Body with
  | .error err => [Effect.Error ("Error reading body: " ++ err) StatusBadRequest]
  | .ok body =>
    match lib.UnmarshalRequest body with
    | .error err => [Effect.Error ("Error reading body " ++ err) StatusBadRequest]
    | .ok updateRequest =>
      let respond : List Effect :=
        let updateResponse := FilterForUpdates allExtensions updateRequest
        writeXML (lib.MarshalResponse updateResponse)
      -- Special case, if there is only 1 extension in the request and it is not
      -- something we know about, redirect the client to google component update server.
      if updateRequest.length = 1 then
        let (_, err) := Contains allExtensions (updateRequest.getD 0 {}).ID
        if err ≠ none then
          [Effect.Redirect "https://update.googleapis.com/service/update2?braveRedirect=true"
            StatusTemporaryRedirect]
        else respond
      else respond

/-- A codec for concrete evaluations: the query is already unescaped and asks
for the identifier `[abc]` at version `1.0`, the body decodes to a request for
`abc` and `xyz`, and the documents are marshalled to the list of identifiers. -/
def sampleCodec : Codec where
  QueryUnescape := fun q => .ok q
  ParseQuery := fun _ => .ok [("id", ["[abc]"]), ("v", ["1.0"])]
  UnmarshalRequest := fun _ =>
    .ok [{ ID := "abc", Version := "1.0" }, { ID := "xyz", Version := "1.0" }]
  MarshalResponse := fun resp => .ok (String.join (resp.map Extension.ID))
  MarshalWebStore := fun resp => .ok resp.ID

/-- A codec for concrete evaluations whose body decodes to the empty request. -/
def emptyBatchCodec : Codec where
  QueryUnescape := fun q => .ok q
  ParseQuery := fun _ => .ok []
  UnmarshalRequest := fun _ => .ok []
  MarshalResponse := fun resp => .ok (String.join (resp.map Extension.ID))
  MarshalWebStore := fun resp => .ok resp.ID

/-! ## extension/xml.go: the batch response document

The XML methods of `UpdateResponse` and `UpdateRequest` live in a file that is
not among the sources; `extension/xml_test.go` holds their expected outputs.
They are modelled from the specification and from these expected outputs. -/

/-- The `package` element of a batch response. -/
structure ResponsePackage where
  Name : String
  SHA256 : String
  Required : String
  deriving DecidableEq, Repr

/-- The `manifest` element of a batch response, with the one `package` of its
`packages` element. -/
structure ResponseManifest where
  Version : String
  Package : ResponsePackage
  deriving DecidableEq, Repr

/-- The `updatecheck` element of a batch response, with the codebase of the
one `url` of its `urls` element. -/
structure ResponseUpdateCheck where
  Status : String
  Codebase : String
  Manifest : ResponseManifest
  deriving DecidableEq, Repr

/-- The `app` element of a batch response. -/
structure ResponseApp where
  AppID : String
  UpdateCheck : ResponseUpdateCheck
  deriving DecidableEq, Repr

/-- The `response` root element of a batch response. -/
structure ResponseDocument where
  Protocol : String
  Server : String
  Apps : List ResponseApp
  deriving DecidableEq, Repr

/-- Modelled from the spec: the file name stem derived from a version, its dots
replaced with underscores (`extension_1_0_0.crx` for version `1.0.0`). -/
def packageName (version : String) : String :=
  "extension_" ++ String.mk (version.data.map (fun c => if c = '.' then '_' else c)) ++ ".crx"

/-- Modelled from the spec: the `app` element of one entry of a batch response
(the part of `UpdateResponse.MarshalXML` for one entry, which is not among the
sources).  The status is always `ok`, `required` is always `true`, the codebase
is the download base followed by the title. -/
def responseApp (extension : Extension) : ResponseApp :=
  { AppID := extension.ID
    UpdateCheck :=
      { Status := "ok"
        Codebase := extension.URL ++ extension.Title
        Manifest :=
          { Version := extension.Version
            Package :=
              { Name := packageName extension.Version
                SHA256 := extension.SHA256
                Required := "true" } } } }

/-- Modelled from the spec: the document `UpdateResponse.MarshalXML` (not among
the sources) builds: the fixed protocol and server attributes at the root and
one `app` element per entry, in list order. -/
def responseDocument (updateResponse : UpdateResponse) : ResponseDocument :=
  { Protocol := "3.1", Server := "prod", Apps := updateResponse.map responseApp }

/-- Model of the characters `encoding/xml` accepts in a document. -/
def inCharacterRange (c : Char) : Bool :=
  c.toNat = 9 || c.toNat = 10 || c.toNat = 13 ||
    (32 ≤ c.toNat && c.toNat ≤ 55295) || (57344 ≤ c.toNat && c.toNat ≤ 65533) ||
    (65536 ≤ c.toNat && c.toNat ≤ 1114111)

/-- Model of how `encoding/xml` escapes one character of an attribute value. -/
def escapeChar (c : Char) : String :=
  if c.toNat = 34 then "&#34;"
  else if c.toNat = 39 then "&#39;"
  else if c = '&' then "&amp;"
  else if c = '<' then "&lt;"
  else if c = '>' then "&gt;"
  else if c.toNat = 9 then "&#x9;"
  else if c.toNat = 10 then "&#xA;"
  else if c.toNat = 13 then "&#xD;"
  else if inCharacterRange c = false then "�"
  else String.mk [c]

/-- Model of how `encoding/xml` writes an attribute value. -/
def escapeText (s : String) : String :=
  String.join (s.data.map escapeChar)

/-- Modelled from the spec: the text of one `app` element, indented by four
spaces per level as in the expected outputs of `TestUpdateResponseMarshalXML`. -/
def renderApp (app : ResponseApp) : String :=
  "\n    <app appid=\"" ++ escapeText app.AppID ++ "\">" ++
  "\n        <updatecheck status=\"" ++ escapeText app.UpdateCheck.Status ++ "\">" ++
  "\n            <urls>" ++
  "\n                <url codebase=\"" ++ escapeText app.UpdateCheck.Codebase ++ "\"></url>" ++
  "\n            </urls>" ++
  "\n            <manifest version=\"" ++ escapeText app.UpdateCheck.Manifest.Version ++ "\">" ++
  "\n                <packages>" ++
  "\n                    <package name=\"" ++ escapeText app.UpdateCheck.Manifest.Package.Name ++
    "\" hash_sha256=\"" ++ escapeText app.UpdateCheck.Manifest.Package.SHA256 ++
    "\" required=\"" ++ escapeText app.UpdateCheck.Manifest.Package.Required ++ "\"></package>" ++
  "\n                </packages>" ++
  "\n            </manifest>" ++
  "\n        </updatecheck>" ++
  "\n    </app>"

/-- Modelled from the spec: the text of a batch response document; a root
without `app` elements has its end tag right after its start tag. -/
def renderResponse (doc : ResponseDocument) : String :=
  "<response protocol=\"" ++ escapeText doc.Protocol ++ "\" server=\"" ++
    escapeText doc.Server ++ "\">" ++
  String.join (doc.Apps.map renderApp) ++
  (if doc.Apps = [] then "" else "\n") ++ "</response>"

/-- Modelled from the spec: `xml.Marshal(&updateResponse)` for an
`UpdateResponse`, whose `MarshalXML` method is not among the sources. -/
def MarshalUpdateResponse (updateResponse : UpdateResponse) : Except String String :=
  .ok (renderResponse (responseDocument updateResponse))

/-- The dark theme entry of the offered extensions, as the expected outputs of
the tests show it. -/
def darkThemeExtension : Extension :=
  { ID := "bfdgpgibhagkpdlnjonhkabjoijopoge"
    Version := "1.0.0"
    SHA256 := "ae517d6273a4fc126961cb026e02946db4f9dbb58e3d9bc29f5e1270e3ce9834"
    Title := "Brave Dark Theme"
    URL := "https://s3.amazonaws.com/brave-extensions/release/bfdgpgibhagkpdlnjonhkabjoijopoge/" }

/-- The light theme entry of the offered extensions, as the expected outputs of
the tests show it. -/
def lightThemeExtension : Extension :=
  { ID := "ldimlcelhnjgpjjemdjokpgeeikdinbm"
    Version := "1.0.0"
    SHA256 := "1c714fadd4208c63f74b707e4c12b81b3ad0153c37de1348fa810dd47cfc5618"
    Title := "Brave Light Theme"
    URL := "https://s3.amazonaws.com/brave-extensions/release/ldimlcelhnjgpjjemdjokpgeeikdinbm/" }

/-- The expected output of `TestUpdateResponseMarshalXML` for the dark theme alone. -/
def expectedDarkThemeXML : String :=
  "<response protocol=\"3.1\" server=\"prod\">\n" ++
  "    <app appid=\"bfdgpgibhagkpdlnjonhkabjoijopoge\">\n" ++
  "        <updatecheck status=\"ok\">\n" ++
  "            <urls>\n" ++
  "                <url codebase=\"https://s3.amazonaws.com/brave-extensions/release/bfdgpgibhagkpdlnjonhkabjoijopoge/Brave Dark Theme\"></url>\n" ++
  "            </urls>\n" ++
  "            <manifest version=\"1.0.0\">\n" ++
  "                <packages>\n" ++
  "                    <package name=\"extension_1_0_0.crx\" hash_sha256=\"ae517d6273a4fc126961cb026e02946db4f9dbb58e3d9bc29f5e1270e3ce9834\" required=\"true\"></package>\n" ++
  "                </packages>\n" ++
  "            </manifest>\n" ++
  "        </updatecheck>\n" ++
  "    </app>\n" ++
  "</response>"

/-- The expected output of `TestUpdateResponseMarshalXML` for the light theme
followed by the dark theme. -/
def expectedTwoThemesXML : String :=
  "<response protocol=\"3.1\" server=\"prod\">\n" ++
  "    <app appid=\"ldimlcelhnjgpjjemdjokpgeeikdinbm\">\n" ++
  "        <updatecheck status=\"ok\">\n" ++
  "            <urls>\n" ++
  "                <url codebase=\"https://s3.amazonaws.com/brave-extensions/release/ldimlcelhnjgpjjemdjokpgeeikdinbm/Brave Light Theme\"></url>\n" ++
  "            </urls>\n" ++
  "            <manifest version=\"1.0.0\">\n" ++
  "                <packages>\n" ++
  "                    <package name=\"extension_1_0_0.crx\" hash_sha256=\"1c714fadd4208c63f74b707e4c12b81b3ad0153c37de1348fa810dd47cfc5618\" required=\"true\"></package>\n" ++
  "                </packages>\n" ++
  "            </manifest>\n" ++
  "        </updatecheck>\n" ++
  "    </app>\n" ++
  "    <app appid=\"bfdgpgibhagkpdlnjonhkabjoijopoge\">\n" ++
  "        <updatecheck status=\"ok\">\n" ++
  "            <urls>\n" ++
  "                <url codebase=\"https://s3.amazonaws.com/brave-extensions/release/bfdgpgibhagkpdlnjonhkabjoijopoge/Brave Dark Theme\"></url>\n" ++
  "            </urls>\n" ++
  "            <manifest version=\"1.0.0\">\n" ++
  "                <packages>\n" ++
  "                    <package name=\"extension_1_0_0.crx\" hash_sha256=\"ae517d6273a4fc126961cb026e02946db4f9dbb58e3d9bc29f5e1270e3ce9834\" required=\"true\"></package>\n" ++
  "                </packages>\n" ++
  "            </manifest>\n" ++
  "        </updatecheck>\n" ++
  "    </app>\n" ++
  "</response>"

/-! ## extension/xml.go: the batch request document

`xml.Unmarshal` reads the input up to the start tag of the root element and
hands it to the `UnmarshalXML` method of `UpdateRequest`, which lets the decoder
read the content of the root.  The XML reading itself is done by `encoding/xml`
and is a parameter here, like the `url` functions of the handlers. -/

deriving instance DecidableEq for Except

/-- The dotted string `a1.a2.….am` of the components `a1, …, am`. -/
def dotted : List String → String
  | [] => ""
  | [c] => c
  | c :: d :: cs => c ++ "." ++ dotted (d :: cs)

/-- A non-empty string of decimal digits. -/
def isDecimal (c : String) : Bool :=
  decide (c.data ≠ []) && c.data.all Char.isDigit

/-- The natural number a string of decimal digits denotes. -/
def decimalValue (c : String) : Nat := digitsValue c.data

/-- An optional sign `+` or `-` followed by a non-empty string of decimal digits. -/
def isSignedDecimal (c : String) : Bool :=
  match c.data with
  | [] => false
  | x :: ds => if x = '-' ∨ x = '+' then isDecimal (String.mk ds) else isDecimal c

/-- Lexicographic order of two sequences of natural numbers as a verdict:
`-1` for less, `0` for equal, `1` for greater. -/
def lexOrder : List Nat → List Nat → Int
  | [], [] => 0
  | [], _ :: _ => -1
  | _ :: _, [] => 1
  | x :: xs, y :: ys => if x < y then -1 else if y < x then 1 else lexOrder xs ys

/-- Componentwise comparison of two sequences of parsed components up to the
length of the shorter one. -/
def cmpParts : List Int → List Int → Int
  | x :: xs, y :: ys => if x < y then -1 else if y < x then 1 else cmpParts xs ys
  | _, _ => 0

/-- A character that `encoding/xml` does not write as it is in an attribute
value: a quotation mark, `&`, `<`, `>`, tab, line feed, carriage return, or a
character outside the XML character range. -/
def needsEscape (c : Char) : Bool :=
  c.toNat = 34 || c.toNat = 39 || c = '&' || c = '<' || c = '>' || c.toNat = 9 ||
    c.toNat = 10 || c.toNat = 13 || !inCharacterRange c

/-- A bracket character, `[` or `]`. -/
def isBracket (c : Char) : Bool := c = '[' || c = ']'

/-- The string starts or ends with a bracket character. -/
def bracketAtEnds (s : String) : Bool :=
  s.data.head?.any isBracket || s.data.getLast?.any isBracket

/-- What one request item contributes to the batch result: the catalog entry
found for its identifier when that entry is not blacklisted and strictly newer
than the requested version, and nothing otherwise. -/
def updateFor (extensions : Extensions) (item : Extension) : Option Extension :=
  match Contains extensions item.ID with
  | (entry, none) =>
    if entry.Blacklisted = false ∧ CompareVersions item.Version entry.Version < 0 then
      some entry
    else none
  | (_, some _) => none

/-! ## Lemmas on `Split` -/

theorem splitChars_ne_nil (sep : Char) (l : List Char) : splitChars sep l ≠ [] := by
  induction l with
  | nil => simp [splitChars]
  | cons c cs ih =>
    unfold splitChars
    split
    · simp
    · split <;> simp

theorem splitChars_append_sep (sep : Char) (a s : List Char) :
    splitChars sep (a ++ sep :: s) = splitChars sep a ++ splitChars sep s := by
  induction a with
  | nil => simp [splitChars]
  | cons c cs ih =>
    by_cases h : c = sep
    · simp [splitChars, h, ih]
    · cases hs : splitChars sep cs with
      | nil => exact absurd hs (splitChars_ne_nil sep cs)
      | cons p ps => simp [splitChars, h, ih, hs]

theorem splitChars_of_not_mem (sep : Char) (l : List Char) (h : sep ∉ l) :
    splitChars sep l = [l] := by
  induction l with
  | nil => simp [splitChars]
  | cons c cs ih =>
    simp only [List.mem_cons, not_or] at h
    have hc : ¬ c = sep := fun e => h.1 e.symm
    simp [splitChars, hc, ih h.2]

theorem Split_ne_nil (s : String) (sep : Char) : Split s sep ≠ [] := by
  simp [Split, splitChars_ne_nil]

theorem Split_append_dot (a s : String) :
    Split (a ++ "." ++ s) '.' = Split a '.' ++ Split s '.' := by
  have h : (a ++ "." ++ s).data = a.data ++ '.' :: s.data := by
    simp [String.data_append]
  simp [Split, h, splitChars_append_sep]

theorem Split_of_not_mem (c : String) (h : '.' ∉ c.data) : Split c '.' = [c] := by
  simp [Split, splitChars_of_not_mem _ _ h]

theorem Split_dotted (cs : List String) (hne : cs ≠ []) :
    Split (dotted cs) '.' = cs.flatMap (fun c => Split c '.') := by
  induction cs with
  | nil => exact absurd rfl hne
  | cons c rest ih =>
    cases rest with
    | nil => simp [dotted]
    | cons d ds =>
      have := ih (by simp)
      simp only [dotted, Split_append_dot, this, List.flatMap_cons]

/-! ## Lemmas on `CompareVersions` -/

theorem getD_append_length (pre : List String) (x d : String) (xs : List String) :
    (pre ++ x :: xs).getD pre.length d = x := by
  induction pre with
  | nil => rfl
  | cons p ps ih => simpa [List.getD_cons_succ] using ih

theorem compareLoop_eq_cmpParts (l1 : List String) :
    ∀ (l2 pre1 pre2 : List String) (i : Nat), pre1.length = i → pre2.length = i →
      compareLoop (pre1 ++ l1) (pre2 ++ l2) (min l1.length l2.length) i =
        cmpParts (l1.map atoiOrZero) (l2.map atoiOrZero) := by
  induction l1 with
  | nil => intro l2 pre1 pre2 i _ _; simp [compareLoop, cmpParts]
  | cons x xs ih =>
    intro l2 pre1 pre2 i h1 h2
    cases l2 with
    | nil => simp [compareLoop, cmpParts]
    | cons y ys =>
      have hm : min (x :: xs).length (y :: ys).length = min xs.length ys.length + 1 := by
        simp [Nat.succ_min_succ]
      have g1 : (pre1 ++ x :: xs).getD i "" = x := by
        subst h1; exact getD_append_length pre1 x "" xs
      have g2 : (pre2 ++ y :: ys).getD i "" = y := by
        rw [← h2]; exact getD_append_length pre2 y "" ys
      have r := ih ys (pre1 ++ [x]) (pre2 ++ [y]) (i + 1) (by simp [h1]) (by simp [h2])
      simp only [List.append_assoc, List.singleton_append] at r
      rw [hm]
      simp only [compareLoop, g1, g2, r, List.map_cons, cmpParts]

theorem CompareVersions_eq_cmpParts (version1 version2 : String) :
    CompareVersions version1 version2 =
      cmpParts ((Split version1 '.').map atoiOrZero) ((Split version2 '.').map atoiOrZero) := by
  have h := compareLoop_eq_cmpParts (Split version1 '.') (Split version2 '.') [] [] 0 rfl rfl
  simp only [List.nil_append] at h
  rw [← h]
  unfold CompareVersions
  by_cases hl : (Split version1 '.').length < (Split version2 '.').length
  · simp [hl, Nat.min_eq_left (Nat.le_of_lt hl)]
  · simp [hl, Nat.min_eq_right (Nat.le_of_not_lt hl)]

theorem cmpParts_antisymm (xs : List Int) : ∀ ys, cmpParts xs ys = -cmpParts ys xs := by
  induction xs with
  | nil => intro ys; cases ys <;> simp [cmpParts]
  | cons x xs ih =>
    intro ys
    cases ys with
    | nil => simp [cmpParts]
    | cons y ys =>
      simp only [cmpParts]
      by_cases h1 : x < y
      · have h2 : ¬ y < x := by omega
        simp [h1, h2]
      · by_cases h2 : y < x
        · simp [h1, h2]
        · simp [h1, h2, ih ys]

theorem cmpParts_append_left (xs zs : List Int) : cmpParts (xs ++ zs) xs = 0 := by
  induction xs with
  | nil => cases zs <;> simp [cmpParts]
  | cons x xs ih => simp [cmpParts, ih]

theorem cmpParts_append_right (xs zs : List Int) : cmpParts xs (xs ++ zs) = 0 := by
  rw [cmpParts_antisymm, cmpParts_append_left]; rfl

theorem isDigit_ne_special (x : Char) (h : x.isDigit = true) :
    x ≠ '-' ∧ x ≠ '+' ∧ x ≠ '.' := by
  refine ⟨?_, ?_, ?_⟩ <;> (rintro rfl; revert h; decide)

theorem isDecimal_dot_not_mem (c : String) (h : isDecimal c = true) : '.' ∉ c.data := by
  simp only [isDecimal, Bool.and_eq_true, List.all_eq_true] at h
  intro hm
  exact (isDigit_ne_special _ (h.2 _ hm)).2.2 rfl

theorem atoiOrZero_of_isDecimal (c : String) (h : isDecimal c = true)
    (hv : decimalValue c < 2 ^ 63) : atoiOrZero c = (decimalValue c : Int) := by
  simp only [isDecimal, Bool.and_eq_true, decide_eq_true_eq] at h
  obtain ⟨hne, hall⟩ := h
  cases hd : c.data with
  | nil => exact absurd hd hne
  | cons x t =>
    have hx : x.isDigit = true := by
      rw [hd] at hall
      simp only [List.all_cons, Bool.and_eq_true] at hall
      exact hall.1
    obtain ⟨hm, hp, _⟩ := isDigit_ne_special x hx
    have hv2 : ¬ (9223372036854775808 ≤ digitsValue (x :: t)) := by
      simp only [decimalValue, hd] at hv; omega
    rw [hd] at hall
    simp [atoiOrZero, Atoi, hd, hm, hp, hall, intSize, hv2, decimalValue]

theorem Atoi_of_not_isSignedDecimal (c : String) (h : isSignedDecimal c = false) :
    Atoi c = none := by
  unfold isSignedDecimal at h
  cases hd : c.data with
  | nil => simp [Atoi, hd]
  | cons x t =>
    rw [hd] at h
    simp only at h
    by_cases hs : x = '-' ∨ x = '+'
    · simp only [hs, if_true, isDecimal, Bool.and_eq_false_iff, decide_eq_false_iff_not,
        not_not] at h
      rcases h with h | h
      · simp [Atoi, hd, hs, h]
      · by_cases ht : t = []
        · simp [Atoi, hd, hs, ht]
        · simp only [Atoi, hd, List.head?_cons, Option.some.injEq, hs, if_true, List.tail_cons,
            ht, if_false, h]
    · simp only [hs, if_false, isDecimal, hd, Bool.and_eq_false_iff, decide_eq_false_iff_not,
        not_not] at h
      rcases h with h | h
      · exact absurd h (by simp)
      · simp only [Atoi, hd, List.head?_cons, Option.some.injEq, hs, if_false, h]
        simp

theorem atoiOrZero_of_not_isSignedDecimal (c : String) (h : isSignedDecimal c = false) :
    atoiOrZero c = atoiOrZero "0" := by
  have h0 : atoiOrZero "0" = 0 := by decide
  rw [h0]
  simp [atoiOrZero, Atoi_of_not_isSignedDecimal c h]

theorem Split_dotted_of_no_dot (cs : List String) (hne : cs ≠ [])
    (h : ∀ c ∈ cs, '.' ∉ c.data) : Split (dotted cs) '.' = cs := by
  rw [Split_dotted cs hne]
  clear hne
  induction cs with
  | nil => rfl
  | cons c rest ih =>
    rw [List.flatMap_cons, Split_of_not_mem c (h c (List.mem_cons_self _ _)),
      ih (fun d hd => h d (List.mem_cons_of_mem _ hd))]
    rfl

theorem cmpParts_cast_eq_lexOrder (xs : List Nat) :
    ∀ ys : List Nat,
      cmpParts (xs.map Int.ofNat) (ys.map Int.ofNat) =
        lexOrder (xs.take (min xs.length ys.length)) (ys.take (min xs.length ys.length)) := by
  induction xs with
  | nil => intro ys; simp [cmpParts, lexOrder]
  | cons x xs ih =>
    intro ys
    cases ys with
    | nil => simp [cmpParts, lexOrder]
    | cons y ys =>
      have hm : min (x :: xs).length (y :: ys).length = min xs.length ys.length + 1 := by
        simp [Nat.succ_min_succ]
      rw [hm]
      simp only [List.map_cons, cmpParts, List.take_succ_cons, lexOrder, ih ys,
        Int.ofNat_eq_coe, Nat.cast_lt]

/-- C3. CompareVersions is antisymmetric: swapping the two versions negates the
verdict, for all strings and in particular for dotted numeric strings with
different numbers of components. -/
theorem CompareVersions_antisymm (a b : String) :
    CompareVersions a b = -CompareVersions b a := by
  rw [CompareVersions_eq_cmpParts, CompareVersions_eq_cmpParts, cmpParts_antisymm]

/-- C4. Truncation rule: a version extended by `"."` and any string compares
equal to the version itself, in both argument orders; in particular
`"1.2.0"` and `"1.2"`, and `"1.0.1"` and `"1.0"`, compare equal. -/
theorem CompareVersions_truncation (a s : String) :
    CompareVersions (a ++ "." ++ s) a = 0 ∧ CompareVersions a (a ++ "." ++ s) = 0 ∧
      CompareVersions "1.2.0" "1.2" = 0 ∧ CompareVersions "1.0.1" "1.0" = 0 := by
  refine ⟨?_, ?_, by decide, by decide⟩
  · rw [CompareVersions_eq_cmpParts, Split_append_dot, List.map_append, cmpParts_append_left]
  · rw [CompareVersions_eq_cmpParts, Split_append_dot, List.map_append, cmpParts_append_right]

/-- C5, as stated, fails: the component `9223372036854775808` is a non-empty
string of decimal digits, but `strconv.Atoi` reports a range error for it and
the code then takes it as 0, so `"9223372036854775808"` compares below `"1"`. -/
theorem CompareVersions_numeric_counterexample :
    ¬ (∀ as bs : List String, as ≠ [] → bs ≠ [] →
        (∀ c ∈ as, isDecimal c = true) → (∀ c ∈ bs, isDecimal c = true) →
        CompareVersions (dotted as) (dotted bs) =
          lexOrder ((as.map decimalValue).take (min as.length bs.length))
            ((bs.map decimalValue).take (min as.length bs.length))) := by
  intro h
  have h1 := h ["9223372036854775808"] ["1"] (by decide) (by decide) (by decide) (by decide)
  revert h1
  decide

/-- C5, amended. For dotted numeric strings `a = a1.….am` and `b = b1.….bn`
whose components are non-empty strings of decimal digits with values below
`2^63` (the values a 64-bit Go `int` holds), CompareVersions is the
lexicographic verdict (-1, 0 or 1) on the first `min m n` components read as
natural numbers. -/
theorem CompareVersions_numeric (as bs : List String) (ha : as ≠ []) (hb : bs ≠ [])
    (hda : ∀ c ∈ as, isDecimal c = true ∧ decimalValue c < 2 ^ 63)
    (hdb : ∀ c ∈ bs, isDecimal c = true ∧ decimalValue c < 2 ^ 63) :
    CompareVersions (dotted as) (dotted bs) =
      lexOrder ((as.map decimalValue).take (min as.length bs.length))
        ((bs.map decimalValue).take (min as.length bs.length)) := by
  have key : ∀ cs : List String, (∀ c ∈ cs, isDecimal c = true ∧ decimalValue c < 2 ^ 63) →
      cs.map atoiOrZero = (cs.map decimalValue).map Int.ofNat := by
    intro cs hcs
    rw [List.map_map]
    apply List.map_congr_left
    intro c hc
    exact atoiOrZero_of_isDecimal c (hcs c hc).1 (hcs c hc).2
  rw [CompareVersions_eq_cmpParts,
    Split_dotted_of_no_dot as ha (fun c hc => isDecimal_dot_not_mem c (hda c hc).1),
    Split_dotted_of_no_dot bs hb (fun c hc => isDecimal_dot_not_mem c (hdb c hc).1),
    key as hda, key bs hdb, cmpParts_cast_eq_lexOrder]
  simp

/-- Witness of C5 (amended) at `"1.1"` against `"1.2"`, where the verdict is -1. -/
theorem CompareVersions_numeric_witness :
    CompareVersions "1.1" "1.2" = lexOrder [1, 1] [1, 2] ∧ lexOrder [1, 1] [1, 2] = -1 :=
  ⟨CompareVersions_numeric ["1", "1"] ["1", "2"] (by decide) (by decide) (by decide)
    (by decide), by decide⟩

/-- C6, as stated, fails: `"-1"` is not a non-empty string of decimal digits,
yet `strconv.Atoi` parses it as -1, so replacing it by `"0"` changes
`CompareVersions "-1" "0"` from -1 to 0. -/
theorem CompareVersions_nonnumeric_counterexample :
    ¬ (∀ (pre post : List String) (c b : String), '.' ∉ c.data → isDecimal c = false →
        CompareVersions (dotted (pre ++ c :: post)) b =
          CompareVersions (dotted (pre ++ "0" :: post)) b) := by
  intro h
  have h1 := h [] [] "-1" "0" (by decide) (by decide)
  revert h1
  decide

theorem Atoi_plus (d : String) (h : isDecimal d = true) : Atoi ("+" ++ d) = Atoi d := by
  simp only [isDecimal, Bool.and_eq_true, decide_eq_true_eq] at h
  obtain ⟨hne, hall⟩ := h
  cases hd : d.data with
  | nil => exact absurd hd hne
  | cons x t =>
    have hx : x.isDigit = true := by
      rw [hd] at hall
      simp only [List.all_cons, Bool.and_eq_true] at hall
      exact hall.1
    obtain ⟨hm, hp, _⟩ := isDigit_ne_special x hx
    have hdata : ("+" ++ d).data = '+' :: x :: t := by
      simp [String.data_append, hd]
    simp [Atoi, hdata, hd, hm, hp]

theorem atoiOrZero_minus (d : String) (h : isDecimal d = true)
    (hv : decimalValue d ≤ 2 ^ 63) : atoiOrZero ("-" ++ d) = -(decimalValue d : Int) := by
  simp only [isDecimal, Bool.and_eq_true, decide_eq_true_eq] at h
  obtain ⟨hne, hall⟩ := h
  have hdata : ("-" ++ d).data = '-' :: d.data := by
    simp [String.data_append]
  have hv2 : ¬ (9223372036854775808 < digitsValue d.data) := by
    simp only [decimalValue] at hv; omega
  simp [atoiOrZero, Atoi, hdata, hne, hall, intSize, hv2, decimalValue]

theorem Split_minus (d : String) (h : isDecimal d = true) :
    Split ("-" ++ d) '.' = ["-" ++ d] := by
  apply Split_of_not_mem
  have hdata : ("-" ++ d).data = '-' :: d.data := by
    simp [String.data_append]
  rw [hdata]
  intro hm
  rcases List.mem_cons.mp hm with h1 | h1
  · exact absurd h1 (by decide)
  · exact isDecimal_dot_not_mem d h h1

theorem Split_plus (d : String) (h : isDecimal d = true) :
    Split ("+" ++ d) '.' = ["+" ++ d] := by
  apply Split_of_not_mem
  have hdata : ("+" ++ d).data = '+' :: d.data := by
    simp [String.data_append]
  rw [hdata]
  intro hm
  rcases List.mem_cons.mp hm with h1 | h1
  · exact absurd h1 (by decide)
  · exact isDecimal_dot_not_mem d h h1

/-- C6, amended. A component that is not an optionally signed (`+` or `-`)
non-empty string of decimal digits is treated as 0: replacing such a component
of either version by `"0"` leaves CompareVersions unchanged.  A signed component
is parsed as that integer, not as 0: `"-1"` is below `"0"` and `"+5"` is above
`"4"`; a version `-d` with d between 1 and 2^63 is below every decimal version
of one component, and a component `+d` counts the same as `d`. -/
theorem CompareVersions_nonnumeric_component (pre post : List String) (c b d e : String) :
    ('.' ∉ c.data → isSignedDecimal c = false →
        CompareVersions (dotted (pre ++ c :: post)) b =
            CompareVersions (dotted (pre ++ "0" :: post)) b ∧
          CompareVersions b (dotted (pre ++ c :: post)) =
            CompareVersions b (dotted (pre ++ "0" :: post))) ∧
      CompareVersions "-1" "0" = -1 ∧ CompareVersions "0" "-1" = 1 ∧
      CompareVersions "+5" "4" = 1 ∧ CompareVersions "+5" "5" = 0 ∧
      CompareVersions "-2" "-1" = -1 ∧ CompareVersions "1.-1" "1.0" = -1 ∧
      (isDecimal d = true → isDecimal e = true → 0 < decimalValue d →
        decimalValue d ≤ 2 ^ 63 → decimalValue e < 2 ^ 63 →
        CompareVersions ("-" ++ d) e = -1 ∧ CompareVersions e ("-" ++ d) = 1) ∧
      (isDecimal d = true →
        CompareVersions (dotted (pre ++ ("+" ++ d) :: post)) b =
            CompareVersions (dotted (pre ++ d :: post)) b ∧
          CompareVersions b (dotted (pre ++ ("+" ++ d) :: post)) =
            CompareVersions b (dotted (pre ++ d :: post))) := by
  refine ⟨fun hdot hc => ?_, by decide, by decide, by decide, by decide, by decide, by decide,
    fun hd he hpos hv hve => ?_, fun hd => ?_⟩
  · have h0 : '.' ∉ ("0" : String).data := by decide
    have key : (Split (dotted (pre ++ c :: post)) '.').map atoiOrZero =
        (Split (dotted (pre ++ "0" :: post)) '.').map atoiOrZero := by
      rw [Split_dotted _ (by simp), Split_dotted _ (by simp)]
      simp only [List.flatMap_append, List.flatMap_cons, Split_of_not_mem c hdot,
        Split_of_not_mem "0" h0, List.map_append, List.singleton_append, List.map_cons,
        atoiOrZero_of_not_isSignedDecimal c hc]
    simp only [CompareVersions_eq_cmpParts, key, and_self]
  · have h1 : atoiOrZero ("-" ++ d) = -(decimalValue d : Int) := atoiOrZero_minus d hd hv
    have h2 : atoiOrZero e = (decimalValue e : Int) := atoiOrZero_of_isDecimal e he hve
    have hlt : -(decimalValue d : Int) < (decimalValue e : Int) := by omega
    have hnlt : ¬ (decimalValue e : Int) < -(decimalValue d : Int) := by omega
    simp only [CompareVersions_eq_cmpParts, Split_minus d hd,
      Split_of_not_mem e (isDecimal_dot_not_mem e he), List.map_cons, List.map_nil, h1, h2,
      cmpParts, hlt, hnlt, if_true, if_false, and_self]
  · have key : (Split (dotted (pre ++ ("+" ++ d) :: post)) '.').map atoiOrZero =
        (Split (dotted (pre ++ d :: post)) '.').map atoiOrZero := by
      have hval : atoiOrZero ("+" ++ d) = atoiOrZero d := by
        simp only [atoiOrZero, Atoi_plus d hd]
      rw [Split_dotted _ (by simp), Split_dotted _ (by simp)]
      simp only [List.flatMap_append, List.flatMap_cons, Split_plus d hd,
        Split_of_not_mem d (isDecimal_dot_not_mem d hd), List.map_append,
        List.singleton_append, List.map_cons, hval]
    simp only [CompareVersions_eq_cmpParts, key, and_self]

/-- Witness of C6 (amended): the component `x` of `"1.x.3"` counts as 0, in
both argument orders, while `-7` is below `3` and `+7` counts as `7`. -/
theorem CompareVersions_nonnumeric_component_witness :
    (CompareVersions "1.x.3" "1.0.2" = CompareVersions "1.0.3" "1.0.2" ∧
        CompareVersions "1.0.2" "1.x.3" = CompareVersions "1.0.2" "1.0.3") ∧
      (CompareVersions "-7" "3" = -1 ∧ CompareVersions "3" "-7" = 1) ∧
      (CompareVersions "1.+7.3" "1.0.2" = CompareVersions "1.7.3" "1.0.2" ∧
        CompareVersions "1.0.2" "1.+7.3" = CompareVersions "1.0.2" "1.7.3") :=
  ⟨(CompareVersions_nonnumeric_component ["1"] ["3"] "x" "1.0.2" "7" "3").1
      (by decide) (by decide),
    (CompareVersions_nonnumeric_component ["1"] ["3"] "x" "1.0.2" "7" "3").2.2.2.2.2.2.2.1
      (by decide) (by decide) (by decide) (by decide) (by decide),
    (CompareVersions_nonnumeric_component ["1"] ["3"] "x" "1.0.2" "7" "3").2.2.2.2.2.2.2.2
      (by decide)⟩

/-! ## Lemmas on `Contains` and `FilterForUpdates` -/

theorem Contains_found_ID (extensions : Extensions) (extensionID : String) (e : Extension)
    (h : Contains extensions extensionID = (e, none)) : e.ID = extensionID ∧ e ∈ extensions := by
  induction extensions with
  | nil => simp [Contains] at h
  | cons x rest ih =>
    unfold Contains at h
    by_cases hx : x.ID = extensionID
    · simp only [hx, if_true, Prod.mk.injEq, and_true] at h
      subst h
      exact ⟨hx, List.mem_cons_self _ _⟩
    · simp only [hx, if_false] at h
      exact ⟨(ih h).1, List.mem_cons_of_mem _ (ih h).2⟩

theorem Contains_not_found (extensions : Extensions) (extensionID : String)
    (h : ∀ e ∈ extensions, e.ID ≠ extensionID) :
    Contains extensions extensionID = (({} : Extension), some "no extensions found") := by
  induction extensions with
  | nil => rfl
  | cons x rest ih =>
    have hx : ¬ x.ID = extensionID := h x (List.mem_cons_self _ _)
    simp only [Contains, hx, if_false]
    exact ih (fun e he => h e (List.mem_cons_of_mem _ he))

theorem filterStep_eq (extensions : Extensions) (acc : UpdateResponse) (item : Extension) :
    (let (foundExtension, err) := Contains extensions item.ID
      if err = none then
        if foundExtension.Blacklisted = false ∧
            CompareVersions item.Version foundExtension.Version < 0 then
          acc ++ [foundExtension]
        else acc
      else acc) = acc ++ (updateFor extensions item).toList := by
  unfold updateFor
  rcases hc : Contains extensions item.ID with ⟨e, err⟩
  cases err with
  | none =>
    by_cases hk : e.Blacklisted = false ∧ CompareVersions item.Version e.Version < 0
    · simp [hk]
    · simp only [if_true, hk, if_false, Option.toList, List.append_nil]
  | some m => simp

theorem FilterForUpdates_foldl (extensions : Extensions) (updateRequest : UpdateRequest) :
    ∀ acc : UpdateResponse,
      updateRequest.foldl
        (fun filteredExtensions extensionBeingChecked =>
          let (foundExtension, err) := Contains extensions extensionBeingChecked.ID
          if err = none then
            if foundExtension.Blacklisted = false ∧
                CompareVersions extensionBeingChecked.Version foundExtension.Version < 0 then
              filteredExtensions ++ [foundExtension]
            else filteredExtensions
          else filteredExtensions)
        acc = acc ++ updateRequest.filterMap (updateFor extensions) := by
  induction updateRequest with
  | nil => intro acc; simp
  | cons item rest ih =>
    intro acc
    rw [List.foldl_cons, filterStep_eq, ih]
    cases h : updateFor extensions item <;> simp [List.filterMap_cons, h]

theorem FilterForUpdates_eq_filterMap (extensions : Extensions) (updateRequest : UpdateRequest) :
    FilterForUpdates extensions updateRequest =
      updateRequest.filterMap (updateFor extensions) := by
  unfold FilterForUpdates
  rw [FilterForUpdates_foldl]
  simp

theorem updateFor_some (extensions : Extensions) (item e : Extension)
    (h : updateFor extensions item = some e) :
    e.ID = item.ID ∧ e.Blacklisted = false ∧ e ∈ extensions := by
  unfold updateFor at h
  rcases hc : Contains extensions item.ID with ⟨f, err⟩
  rw [hc] at h
  cases err with
  | some m => simp at h
  | none =>
    simp only at h
    by_cases hk : f.Blacklisted = false ∧ CompareVersions item.Version f.Version < 0
    · simp only [hk, and_self, if_true, Option.some.injEq] at h
      subst h
      exact ⟨(Contains_found_ID _ _ _ hc).1, hk.1, (Contains_found_ID _ _ _ hc).2⟩
    · simp [hk] at h

/-- C1. FilterForUpdates returns exactly the list built by going through the
request items in order and appending, for each item whose identifier Contains
finds with an entry that is not blacklisted and strictly newer than the
requested version, that catalog entry; every other item contributes nothing.
With the catalog holding only A at version 1.0.0, the request for A at 0.5
yields [A] and the request for A at 1.0.0 yields the empty list. -/
theorem FilterForUpdates_spec (extensions : Extensions) (updateRequest : UpdateRequest) :
    FilterForUpdates extensions updateRequest =
        updateRequest.filterMap (fun item =>
          match Contains extensions item.ID with
          | (entry, none) =>
            if entry.Blacklisted = false ∧ CompareVersions item.Version entry.Version < 0 then
              some entry
            else none
          | (_, some _) => none) ∧
      FilterForUpdates [{ ID := "A", Version := "1.0.0", SHA256 := "h1", Blacklisted := false }]
          [{ ID := "A", Version := "0.5" }] =
        [{ ID := "A", Version := "1.0.0", SHA256 := "h1", Blacklisted := false }] ∧
      FilterForUpdates [{ ID := "A", Version := "1.0.0", SHA256 := "h1", Blacklisted := false }]
          [{ ID := "A", Version := "1.0.0" }] = [] :=
  ⟨FilterForUpdates_eq_filterMap extensions updateRequest, by decide, by decide⟩

/-- C2. No entry of the batch result is blacklisted, whatever the catalog and
the request, also when the blacklisted entry is strictly newer than the
requested version. -/
theorem FilterForUpdates_not_blacklisted (extensions : Extensions)
    (updateRequest : UpdateRequest) (e : Extension)
    (h : e ∈ FilterForUpdates extensions updateRequest) : e.Blacklisted = false := by
  rw [FilterForUpdates_eq_filterMap, List.mem_filterMap] at h
  obtain ⟨item, _, hitem⟩ := h
  exact (updateFor_some extensions item e hitem).2.1

/-- Witness of C2: with A offered and B blacklisted but newer than requested,
only A is in the result, and A is not blacklisted. -/
theorem FilterForUpdates_not_blacklisted_witness :
    FilterForUpdates
        [{ ID := "A", Version := "1.0.0" }, { ID := "B", Version := "2.0", Blacklisted := true }]
        [{ ID := "B", Version := "1.0" }, { ID := "A", Version := "0.5" }] =
        [{ ID := "A", Version := "1.0.0" }] ∧
      ({ ID := "A", Version := "1.0.0" } : Extension).Blacklisted = false :=
  ⟨by decide,
    FilterForUpdates_not_blacklisted
      [{ ID := "A", Version := "1.0.0" }, { ID := "B", Version := "2.0", Blacklisted := true }]
      [{ ID := "B", Version := "1.0" }, { ID := "A", Version := "0.5" }]
      { ID := "A", Version := "1.0.0" } (by decide)⟩

/-- C7. The batch result follows request order: the result for `r1 ++ r2` is
the result for `r1` followed by the result for `r2`, so the result is the
concatenation of what each item contributes, in request order; the identifiers
of the result form a subsequence of the identifiers of the request; and a
permuted request gives the correspondingly permuted result. -/
theorem FilterForUpdates_request_order (extensions : Extensions) (r1 r2 : UpdateRequest) :
    FilterForUpdates extensions (r1 ++ r2) =
        FilterForUpdates extensions r1 ++ FilterForUpdates extensions r2 ∧
      FilterForUpdates extensions r1 =
        r1.flatMap (fun item => FilterForUpdates extensions [item]) ∧
      List.Sublist ((FilterForUpdates extensions r1).map Extension.ID)
        (r1.map Extension.ID) ∧
      (∀ r3 : UpdateRequest, List.Perm r1 r3 →
        List.Perm (FilterForUpdates extensions r1) (FilterForUpdates extensions r3)) := by
  refine ⟨?_, ?_, ?_, ?_⟩
  · simp only [FilterForUpdates_eq_filterMap, List.filterMap_append]
  · simp only [FilterForUpdates_eq_filterMap]
    induction r1 with
    | nil => rfl
    | cons item rest ih =>
      rw [List.flatMap_cons, ← ih]
      cases h : updateFor extensions item <;> simp [List.filterMap_cons, h]
  · rw [FilterForUpdates_eq_filterMap]
    induction r1 with
    | nil => simp
    | cons item rest ih =>
      cases h : updateFor extensions item with
      | none =>
        simp only [List.filterMap_cons, h, List.map_cons]
        exact List.Sublist.cons _ ih
      | some e =>
        simp only [List.filterMap_cons, h, List.map_cons]
        rw [(updateFor_some extensions item e h).1]
        exact List.Sublist.cons₂ _ ih
  · intro r3 hp
    simp only [FilterForUpdates_eq_filterMap]
    exact List.Perm.filterMap _ hp

/-- Witness of C7: swapping the two items of a request swaps the two entries
of the result. -/
theorem FilterForUpdates_request_order_witness :
    FilterForUpdates
        [{ ID := "A", Version := "1.0.0" }, { ID := "B", Version := "2.0" }]
        [{ ID := "B", Version := "1.0" }, { ID := "A", Version := "0.5" }] =
        [{ ID := "B", Version := "2.0" }, { ID := "A", Version := "1.0.0" }] ∧
      List.Perm
        (FilterForUpdates
          [{ ID := "A", Version := "1.0.0" }, { ID := "B", Version := "2.0" }]
          [{ ID := "B", Version := "1.0" }, { ID := "A", Version := "0.5" }])
        (FilterForUpdates
          [{ ID := "A", Version := "1.0.0" }, { ID := "B", Version := "2.0" }]
          [{ ID := "A", Version := "0.5" }, { ID := "B", Version := "1.0" }]) :=
  ⟨by decide,
    (FilterForUpdates_request_order
      [{ ID := "A", Version := "1.0.0" }, { ID := "B", Version := "2.0" }]
      [{ ID := "B", Version := "1.0" }, { ID := "A", Version := "0.5" }] []).2.2.2
      [{ ID := "A", Version := "0.5" }, { ID := "B", Version := "1.0" }]
      (List.Perm.swap _ _ _)⟩

/-! ## The handlers -/

theorem writeXML_ne_redirect (marshalled : Except String String) (url : String) (code : Nat) :
    writeXML marshalled ≠ [Effect.Redirect url code] := by
  simp [writeXML]

theorem String_length_eq_zero (s : String) : s.length = 0 ↔ s = "" := by
  rcases s with ⟨l⟩
  cases l with
  | nil => simp [String.length]
  | cons c cs =>
    simp only [String.length, List.length_cons, Nat.add_one_ne_zero, false_iff]
    intro h
    have h2 := congrArg String.data h
    simp at h2

/-- C8. For a successfully decoded batch request, UpdateExtensions answers
with the redirect to the upstream update server, and nothing else, exactly when
the request has one item and Contains fails for its identifier; in every other
case it answers with the XML marshalled from FilterForUpdates of the request
(content type, status 200 and the document). -/
theorem UpdateExtensions_disposition (lib : Codec) (allExtensions : Extensions) (r : Request)
    (body : String) (updateRequest : UpdateRequest) (hb : r.Body = .ok body)
    (hd : lib.UnmarshalRequest body = .ok updateRequest) :
    (UpdateExtensions lib allExtensions r =
          [Effect.Redirect "https://update.googleapis.com/service/update2?braveRedirect=true"
            StatusTemporaryRedirect] ↔
        ∃ item, updateRequest = [item] ∧ (Contains allExtensions item.ID).2 ≠ none) ∧
      (¬ (∃ item, updateRequest = [item] ∧ (Contains allExtensions item.ID).2 ≠ none) →
        UpdateExtensions lib allExtensions r =
            writeXML (lib.MarshalResponse (FilterForUpdates allExtensions updateRequest)) ∧
          ∀ data, lib.MarshalResponse (FilterForUpdates allExtensions updateRequest) = .ok data →
            UpdateExtensions lib allExtensions r =
              [Effect.HeaderSet "content-type" "application/xml", Effect.WriteHeader StatusOK,
                Effect.Write data]) := by
  have hw : ∀ data, lib.MarshalResponse (FilterForUpdates allExtensions updateRequest) = .ok data →
      writeXML (lib.MarshalResponse (FilterForUpdates allExtensions updateRequest)) =
        [Effect.HeaderSet "content-type" "application/xml", Effect.WriteHeader StatusOK,
          Effect.Write data] := by
    intro data hm
    simp [writeXML, hm]
  match updateRequest, hd, hw with
  | [], hd, hw =>
    have hrun : UpdateExtensions lib allExtensions r =
        writeXML (lib.MarshalResponse (FilterForUpdates allExtensions [])) := by
      simp [UpdateExtensions, hb, hd]
    refine ⟨⟨fun h => ?_, fun h => ?_⟩, fun _ => ⟨hrun, fun data hm => ?_⟩⟩
    · exact absurd (hrun ▸ h) (writeXML_ne_redirect _ _ _)
    · obtain ⟨item, hi, _⟩ := h
      simp at hi
    · rw [hrun]; exact hw data hm
  | [item], hd, hw =>
    rcases hc : Contains allExtensions item.ID with ⟨e, err⟩
    cases err with
    | none =>
      have hrun : UpdateExtensions lib allExtensions r =
          writeXML (lib.MarshalResponse (FilterForUpdates allExtensions [item])) := by
        simp [UpdateExtensions, hb, hd, hc]
      refine ⟨⟨fun h => ?_, fun h => ?_⟩, fun _ => ⟨hrun, fun data hm => ?_⟩⟩
      · exact absurd (hrun ▸ h) (writeXML_ne_redirect _ _ _)
      · obtain ⟨item2, hi, hf⟩ := h
        simp only [List.cons.injEq, and_true] at hi
        subst hi
        simp [hc] at hf
      · rw [hrun]; exact hw data hm
    | some m =>
      have hrun : UpdateExtensions lib allExtensions r =
          [Effect.Redirect "https://update.googleapis.com/service/update2?braveRedirect=true"
            StatusTemporaryRedirect] := by
        simp [UpdateExtensions, hb, hd, hc]
      refine ⟨⟨fun _ => ⟨item, rfl, by simp [hc]⟩, fun _ => hrun⟩, fun h => ?_⟩
      exact absurd ⟨item, rfl, by simp [hc]⟩ h
  | item :: item2 :: rest, hd, hw =>
    have hrun : UpdateExtensions lib allExtensions r =
        writeXML (lib.MarshalResponse (FilterForUpdates allExtensions (item :: item2 :: rest))) := by
      simp [UpdateExtensions, hb, hd]
    refine ⟨⟨fun h => ?_, fun h => ?_⟩, fun _ => ⟨hrun, fun data hm => ?_⟩⟩
    · exact absurd (hrun ▸ h) (writeXML_ne_redirect _ _ _)
    · obtain ⟨item3, hi, _⟩ := h
      simp at hi
    · rw [hrun]; exact hw data hm

/-- Witness of C8: a request of two identifiers, `xyz` unknown to the catalog,
is not redirected. -/
theorem UpdateExtensions_disposition_witness :
    UpdateExtensions sampleCodec [{ ID := "abc", Version := "2.0" }] {} ≠
        [Effect.Redirect "https://update.googleapis.com/service/update2?braveRedirect=true"
          StatusTemporaryRedirect] ∧
      UpdateExtensions sampleCodec [{ ID := "abc", Version := "2.0" }] {} =
        [Effect.HeaderSet "content-type" "application/xml", Effect.WriteHeader StatusOK,
          Effect.Write "abc"] :=
  ⟨by decide,
    ((UpdateExtensions_disposition sampleCodec [{ ID := "abc", Version := "2.0" }] {} ""
      [{ ID := "abc", Version := "1.0" }, { ID := "xyz", Version := "1.0" }] rfl rfl).2
      (by rintro ⟨item, hi, _⟩; simp at hi)).2 "abc" rfl⟩

/-- C9. In the single-item handler, a non-empty bracket-stripped identifier
that no catalog entry has is answered with the redirect to the upstream web
store and nothing else, whatever the requested version. -/
theorem WebStoreUpdateExtension_unknown (lib : Codec) (allExtensions : Extensions)
    (r : Request) (unescaped : String) (values : Values)
    (hu : lib.QueryUnescape r.FormX = .ok unescaped)
    (hp : lib.ParseQuery unescaped = .ok values)
    (hid : Trim (values.Get "id") "[]" ≠ "")
    (hun : ∀ e ∈ allExtensions, e.ID ≠ Trim (values.Get "id") "[]") :
    WebStoreUpdateExtension lib allExtensions r =
      [Effect.Redirect
        ("https://clients2.google.com/service/update2/crx?" ++ r.RawQuery ++
          "&braveRedirect=true")
        StatusTemporaryRedirect] := by
  have hl : ¬ (Trim (values.Get "id") "[]").length = 0 := by
    rw [String_length_eq_zero]; exact hid
  simp [WebStoreUpdateExtension, hu, hp, hl, Contains_not_found _ _ hun]

/-- Witness of C9: the identifier `abc` against a catalog that only has `xyz`. -/
theorem WebStoreUpdateExtension_unknown_witness :
    WebStoreUpdateExtension sampleCodec [{ ID := "xyz", Version := "2.0" }]
        { FormX := "id=[abc]&v=1.0", RawQuery := "x=id%3D%5Babc%5D%26v%3D1.0" } =
      [Effect.Redirect
        ("https://clients2.google.com/service/update2/crx?" ++ "x=id%3D%5Babc%5D%26v%3D1.0" ++
          "&braveRedirect=true")
        StatusTemporaryRedirect] :=
  WebStoreUpdateExtension_unknown sampleCodec [{ ID := "xyz", Version := "2.0" }]
    { FormX := "id=[abc]&v=1.0", RawQuery := "x=id%3D%5Babc%5D%26v%3D1.0" }
    "id=[abc]&v=1.0" [("id", ["[abc]"]), ("v", ["1.0"])] rfl rfl (by decide) (by decide)

theorem Contains_of_mem_nodup (extensions : Extensions) (e : Extension) (he : e ∈ extensions)
    (hn : (extensions.map Extension.ID).Nodup) : Contains extensions e.ID = (e, none) := by
  induction extensions with
  | nil => simp at he
  | cons x rest ih =>
    simp only [List.map_cons, List.nodup_cons, List.mem_map, not_exists, not_and] at hn
    rcases List.mem_cons.mp he with h | h
    · subst h; simp [Contains]
    · have hx : ¬ x.ID = e.ID := fun heq => hn.1 e h heq.symm
      simp only [Contains, hx, if_false]
      exact ih h hn.2

theorem Contains_perm (c1 c2 : Extensions) (hp : List.Perm c1 c2)
    (hn : (c1.map Extension.ID).Nodup) (extensionID : String) :
    Contains c2 extensionID = Contains c1 extensionID := by
  have hn2 : (c2.map Extension.ID).Nodup := (hp.map Extension.ID).nodup_iff.mp hn
  by_cases hex : ∃ e ∈ c1, e.ID = extensionID
  · obtain ⟨e, he, hid⟩ := hex
    subst hid
    rw [Contains_of_mem_nodup c1 e he hn, Contains_of_mem_nodup c2 e (hp.mem_iff.mp he) hn2]
  · have h1 : ∀ e ∈ c1, e.ID ≠ extensionID := fun e he hid => hex ⟨e, he, hid⟩
    have h2 : ∀ e ∈ c2, e.ID ≠ extensionID := fun e he => h1 e (hp.mem_iff.mpr he)
    rw [Contains_not_found c1 _ h1, Contains_not_found c2 _ h2]

theorem Contains_first (pre post : Extensions) (e : Extension)
    (hpre : ∀ p ∈ pre, p.ID ≠ e.ID) : Contains (pre ++ e :: post) e.ID = (e, none) := by
  induction pre with
  | nil => simp [Contains]
  | cons x rest ih =>
    have hx : ¬ x.ID = e.ID := hpre x (List.mem_cons_self _ _)
    simp only [List.cons_append, Contains, hx, if_false]
    exact ih (fun p hp => hpre p (List.mem_cons_of_mem _ hp))

theorem Contains_err_of_mem (extensions : Extensions) (extensionID : String) (e : Extension)
    (he : e ∈ extensions) (hid : e.ID = extensionID) :
    (Contains extensions extensionID).2 = none := by
  induction extensions with
  | nil => simp at he
  | cons y rest ih =>
    by_cases hy : y.ID = extensionID
    · simp [Contains, hy]
    · simp only [Contains, hy, if_false]
      rcases List.mem_cons.mp he with h2 | h2
      · exact absurd (h2 ▸ hid) hy
      · exact ih h2

/-- C13. Catalog lookup: Contains succeeds exactly when some catalog entry has
the identifier; on success the returned entry is an element of the catalog with
that identifier, and on failure the result is the zero-valued Extension
together with the error "no extensions found". -/
theorem Contains_spec (extensions : Extensions) (extensionID : String) :
    ((Contains extensions extensionID).2 = none ↔ ∃ e ∈ extensions, e.ID = extensionID) ∧
      ((Contains extensions extensionID).2 = none →
        (Contains extensions extensionID).1 ∈ extensions ∧
          (Contains extensions extensionID).1.ID = extensionID) ∧
      ((Contains extensions extensionID).2 ≠ none →
        Contains extensions extensionID =
          ({ ID := "", Version := "", SHA256 := "", Title := "", URL := "",
             Blacklisted := false }, some "no extensions found")) := by
  have found : (Contains extensions extensionID).2 = none →
      (Contains extensions extensionID).1 ∈ extensions ∧
        (Contains extensions extensionID).1.ID = extensionID := by
    intro h
    have hc : Contains extensions extensionID = ((Contains extensions extensionID).1, none) := by
      rw [← h]
    exact ⟨(Contains_found_ID _ _ _ hc).2, (Contains_found_ID _ _ _ hc).1⟩
  have missing : (¬ ∃ e ∈ extensions, e.ID = extensionID) →
      Contains extensions extensionID = (({} : Extension), some "no extensions found") :=
    fun hex => Contains_not_found _ _ (fun e he hid => hex ⟨e, he, hid⟩)
  refine ⟨⟨fun h => ⟨_, (found h).1, (found h).2⟩, fun hex => ?_⟩, found, fun h => ?_⟩
  · obtain ⟨e, he, hid⟩ := hex
    exact Contains_err_of_mem extensions extensionID e he hid
  · by_cases hex : ∃ e ∈ extensions, e.ID = extensionID
    · obtain ⟨e, he, hid⟩ := hex
      exact absurd (Contains_err_of_mem extensions extensionID e he hid) h
    · exact missing hex

/-- Witness of C13: the lookup of `B` in a catalog of `A` and `B` succeeds and
returns an entry of the catalog with the identifier `B`. -/
theorem Contains_spec_witness :
    (Contains [{ ID := "A", Version := "1.0.0" }, { ID := "B", Version := "2.0" }] "B").1 ∈
        [({ ID := "A", Version := "1.0.0" } : Extension), { ID := "B", Version := "2.0" }] ∧
      (Contains [{ ID := "A", Version := "1.0.0" }, { ID := "B", Version := "2.0" }] "B").1.ID
        = "B" :=
  (Contains_spec [{ ID := "A", Version := "1.0.0" }, { ID := "B", Version := "2.0" }] "B").2.1
    (by decide)

/-- C14. For every catalog, FilterForUpdates of the empty request is the empty
list, and a body that decodes to the empty request is not redirected: the
handler answers with the XML marshalled from the empty response. -/
theorem UpdateExtensions_empty_request (lib : Codec) (allExtensions : Extensions)
    (r : Request) (body : String) (hb : r.Body = .ok body)
    (hd : lib.UnmarshalRequest body = .ok []) :
    FilterForUpdates allExtensions [] = [] ∧
      UpdateExtensions lib allExtensions r = writeXML (lib.MarshalResponse []) := by
  refine ⟨rfl, ?_⟩
  simp [UpdateExtensions, hb, hd, FilterForUpdates]

/-- Witness of C14: the empty request against a catalog of one entry. -/
theorem UpdateExtensions_empty_request_witness :
    FilterForUpdates [{ ID := "A", Version := "1.0.0" }] [] = [] ∧
      UpdateExtensions emptyBatchCodec [{ ID := "A", Version := "1.0.0" }] {} =
        writeXML (emptyBatchCodec.MarshalResponse []) :=
  UpdateExtensions_empty_request emptyBatchCodec [{ ID := "A", Version := "1.0.0" }] {} ""
    rfl rfl

/-- C15. The batch result does not depend on catalog order: for a catalog with
unique identifiers, every permutation of the catalog gives the same result list
for every request. -/
theorem FilterForUpdates_catalog_order (c1 c2 : Extensions) (r : UpdateRequest)
    (hn : (c1.map Extension.ID).Nodup) (hp : List.Perm c1 c2) :
    FilterForUpdates c2 r = FilterForUpdates c1 r := by
  rw [FilterForUpdates_eq_filterMap, FilterForUpdates_eq_filterMap]
  apply congrArg (fun f => List.filterMap f r)
  funext item
  simp only [updateFor, Contains_perm c1 c2 hp hn]

/-- Witness of C15: the catalog of `A` and `B` in both orders, against a request
that names `B` first. -/
theorem FilterForUpdates_catalog_order_witness :
    FilterForUpdates [{ ID := "B", Version := "2.0" }, { ID := "A", Version := "1.0.0" }]
        [{ ID := "B", Version := "1.0" }, { ID := "A", Version := "0.5" }] =
      FilterForUpdates [{ ID := "A", Version := "1.0.0" }, { ID := "B", Version := "2.0" }]
        [{ ID := "B", Version := "1.0" }, { ID := "A", Version := "0.5" }] :=
  FilterForUpdates_catalog_order
    [{ ID := "A", Version := "1.0.0" }, { ID := "B", Version := "2.0" }]
    [{ ID := "B", Version := "2.0" }, { ID := "A", Version := "1.0.0" }]
    [{ ID := "B", Version := "1.0" }, { ID := "A", Version := "0.5" }]
    (by decide) (List.Perm.swap _ _ _)

/-- C18. The verdict "equal" of CompareVersions is not transitive: `"1.0.1"`
equals `"1.0"` and `"1.0"` equals `"1.0.2"`, yet `"1.0.1"` is below `"1.0.2"`;
so there are versions a, b, c with a equal to b, b equal to c and a not equal
to c. -/
theorem CompareVersions_equal_not_transitive :
    CompareVersions "1.0.1" "1.0" = 0 ∧ CompareVersions "1.0" "1.0.2" = 0 ∧
      CompareVersions "1.0.1" "1.0.2" = -1 ∧
      ∃ a b c : String, CompareVersions a b = 0 ∧ CompareVersions b c = 0 ∧
        CompareVersions a c ≠ 0 :=
  ⟨by decide, by decide, by decide, "1.0.1", "1.0", "1.0.2", by decide, by decide, by decide⟩

/-- C19. When several entries share an identifier, the first one in catalog
order wins: for a catalog `pre ++ [e] ++ post` where no entry of `pre` has the
identifier of `e`, Contains returns `e` whatever `post` is, and a request item
with that identifier is filtered against `e` alone. -/
theorem Contains_first_wins (pre post : Extensions) (e : Extension)
    (hpre : ∀ p ∈ pre, p.ID ≠ e.ID) :
    Contains (pre ++ [e] ++ post) e.ID = (e, none) ∧
      ∀ item : Extension, item.ID = e.ID →
        FilterForUpdates (pre ++ [e] ++ post) [item] =
          if e.Blacklisted = false ∧ CompareVersions item.Version e.Version < 0 then [e]
          else [] := by
  have hc : Contains (pre ++ [e] ++ post) e.ID = (e, none) := by
    simpa using Contains_first pre post e hpre
  refine ⟨hc, fun item hid => ?_⟩
  rw [FilterForUpdates_eq_filterMap]
  by_cases hk : e.Blacklisted = false ∧ CompareVersions item.Version e.Version < 0
  · simp only [List.filterMap_cons, updateFor, hid, hc, hk, and_self, if_true,
      List.filterMap_nil]
  · simp only [List.filterMap_cons, updateFor, hid, hc, hk, if_false, List.filterMap_nil]

/-- Witness of C19: of two entries `A`, a newer and blacklisted one after an
older one, only the older, first one is consulted. -/
theorem Contains_first_wins_witness :
    Contains
        ([{ ID := "B", Version := "2.0" }] ++ [{ ID := "A", Version := "1.0.0" }] ++
          [{ ID := "A", Version := "9.0", Blacklisted := true }]) "A" =
      ({ ID := "A", Version := "1.0.0" }, none) :=
  (Contains_first_wins [{ ID := "B", Version := "2.0" }]
    [{ ID := "A", Version := "9.0", Blacklisted := true }] { ID := "A", Version := "1.0.0" }
    (by decide)).1

/-! ## The single-item handler: identifier and blacklist -/

theorem Trim_data (s cutset : String) :
    (Trim s cutset).data =
      List.rdropWhile (fun c => decide (c ∈ cutset.data))
        (s.data.dropWhile (fun c => decide (c ∈ cutset.data))) := rfl

theorem mem_brackets (c : Char) : decide (c ∈ ("[]" : String).data) = isBracket c := by
  have h : ("[]" : String).data = ['[', ']'] := rfl
  simp [h, isBracket]

theorem trim_eq_nil_iff (p : Char → Bool) (l : List Char) :
    List.rdropWhile p (l.dropWhile p) = [] ↔ ∀ x ∈ l, p x = true := by
  constructor
  · intro h
    rw [List.rdropWhile_eq_nil_iff] at h
    have hnil : l.dropWhile p = [] := by
      by_contra hne
      have hnot := List.head_dropWhile_not p l hne
      have := h _ (List.head_mem hne)
      simp [this] at hnot
    exact List.dropWhile_eq_nil_iff.mp hnil
  · intro h
    have hnil : l.dropWhile p = [] := List.dropWhile_eq_nil_iff.mpr h
    simp [hnil, List.rdropWhile]

theorem trim_sandwich (p : Char → Bool) (pre mid post : List Char)
    (hpre : ∀ x ∈ pre, p x = true) (hpost : ∀ x ∈ post, p x = true)
    (hhead : mid.head?.any p = false) (hlast : mid.getLast?.any p = false) :
    List.rdropWhile p ((pre ++ mid ++ post).dropWhile p) = mid := by
  cases mid with
  | nil =>
    have hall : ∀ x ∈ pre ++ [] ++ post, p x = true := by
      intro x hx
      simp only [List.append_nil, List.mem_append] at hx
      exact hx.elim (hpre x) (hpost x)
    exact (trim_eq_nil_iff p _).mpr hall
  | cons a m =>
    have ha : ¬ p a = true := by simpa using hhead
    have hd : (pre ++ a :: m ++ post).dropWhile p = a :: m ++ post := by
      rw [List.append_assoc, List.dropWhile_append_of_pos hpre, List.cons_append,
        List.dropWhile_cons_of_neg ha]
    rw [hd]
    have hrev : ∀ x ∈ post.reverse, p x = true := fun x hx => hpost x (List.mem_reverse.mp hx)
    have hr : List.rdropWhile p (a :: m ++ post) = List.rdropWhile p (a :: m) := by
      simp only [List.rdropWhile, List.reverse_append, List.dropWhile_append_of_pos hrev]
    rw [hr, List.rdropWhile_eq_self_iff]
    intro hne
    rw [List.getLast?_eq_getLast _ hne] at hlast
    simpa using hlast

theorem Trim_brackets_eq_empty_iff (s : String) :
    Trim s "[]" = "" ↔ s.data.all isBracket = true := by
  have h1 : Trim s "[]" = "" ↔ (Trim s "[]").data = [] := by
    constructor
    · intro h; rw [h]
    · intro h
      rcases hs : Trim s "[]" with ⟨l⟩
      rw [hs] at h
      simp only at h
      rw [h]
  have hfun : (fun c => decide (c ∈ ("[]" : String).data)) = isBracket :=
    funext mem_brackets
  rw [h1, Trim_data, hfun, trim_eq_nil_iff, List.all_eq_true]

theorem Trim_brackets_sandwich (pre mid post : String)
    (hpre : pre.data.all isBracket = true) (hpost : post.data.all isBracket = true)
    (hmid : bracketAtEnds mid = false) : Trim (pre ++ mid ++ post) "[]" = mid := by
  simp only [bracketAtEnds, Bool.or_eq_false_iff] at hmid
  rw [List.all_eq_true] at hpre hpost
  have hd : (Trim (pre ++ mid ++ post) "[]").data = mid.data := by
    rw [Trim_data]
    have hfun : (fun c => decide (c ∈ ("[]" : String).data)) = isBracket :=
      funext mem_brackets
    rw [hfun]
    simp only [String.data_append]
    exact trim_sandwich isBracket pre.data mid.data post.data hpre hpost hmid.1 hmid.2
  rcases ht : Trim (pre ++ mid ++ post) "[]" with ⟨l⟩
  rw [ht] at hd
  simp only at hd
  rw [hd]

theorem WebStoreUpdateExtension_run (lib : Codec) (allExtensions : Extensions)
    (r : Request) (unescaped : String) (values : Values)
    (hu : lib.QueryUnescape r.FormX = .ok unescaped)
    (hp : lib.ParseQuery unescaped = .ok values)
    (hid : Trim (values.Get "id") "[]" ≠ "") :
    WebStoreUpdateExtension lib allExtensions r =
      if (Contains allExtensions (Trim (values.Get "id") "[]")).2 ≠ none then
        [Effect.Redirect
          ("https://clients2.google.com/service/update2/crx?" ++ r.RawQuery ++
            "&braveRedirect=true")
          StatusTemporaryRedirect]
      else
        writeXML (lib.MarshalWebStore
          (if CompareVersions (values.Get "v")
              (Contains allExtensions (Trim (values.Get "id") "[]")).1.Version < 0 then
            { ID := (Contains allExtensions (Trim (values.Get "id") "[]")).1.ID,
              Version := (Contains allExtensions (Trim (values.Get "id") "[]")).1.Version,
              SHA256 := (Contains allExtensions (Trim (values.Get "id") "[]")).1.SHA256,
              Title := "", URL := "", Blacklisted := false }
          else {})) := by
  have hl : ¬ (Trim (values.Get "id") "[]").length = 0 := by
    rw [String_length_eq_zero]; exact hid
  rcases hc : Contains allExtensions (Trim (values.Get "id") "[]") with ⟨e, err⟩
  cases err <;> simp [WebStoreUpdateExtension, hu, hp, hl, hc]

/-- C12. In the single-item handler the identifier is the decoded `id` value
without its leading and trailing brackets.  When the `id` value is missing,
empty or made of brackets only, the handler's only call is the client error
"No extension ID specified." (no lookup result, redirect or document); when it
is not, the request is not answered with a client error, and the identifier
stripped of its brackets is the one looked up: a miss redirects, a hit writes a
document. -/
theorem WebStoreUpdateExtension_identifier (lib : Codec) (allExtensions : Extensions)
    (r : Request) (unescaped : String) (values : Values)
    (hu : lib.QueryUnescape r.FormX = .ok unescaped)
    (hp : lib.ParseQuery unescaped = .ok values) :
    ((values.lookup "id" = none ∨ (values.Get "id").data.all isBracket = true) →
        WebStoreUpdateExtension lib allExtensions r =
          [Effect.Error "No extension ID specified." StatusBadRequest]) ∧
      ((values.Get "id").data.all isBracket = false →
        ∀ msg, WebStoreUpdateExtension lib allExtensions r ≠
          [Effect.Error msg StatusBadRequest]) ∧
      (∀ pre mid post : String, values.Get "id" = pre ++ mid ++ post →
        pre.data.all isBracket = true → post.data.all isBracket = true →
        mid ≠ "" → bracketAtEnds mid = false →
        Trim (values.Get "id") "[]" = mid ∧
          ((Contains allExtensions mid).2 ≠ none →
            WebStoreUpdateExtension lib allExtensions r =
              [Effect.Redirect
                ("https://clients2.google.com/service/update2/crx?" ++ r.RawQuery ++
                  "&braveRedirect=true")
                StatusTemporaryRedirect]) ∧
          ((Contains allExtensions mid).2 = none →
            ∃ doc, WebStoreUpdateExtension lib allExtensions r =
              writeXML (lib.MarshalWebStore doc))) := by
  refine ⟨fun h => ?_, fun h msg => ?_, fun pre mid post hsplit hpre hpost hmid hends => ?_⟩
  · have hall : (values.Get "id").data.all isBracket = true := by
      rcases h with h | h
      · simp [Values.Get, h]
      · exact h
    have ht : Trim (values.Get "id") "[]" = "" := (Trim_brackets_eq_empty_iff _).mpr hall
    simp [WebStoreUpdateExtension, hu, hp, ht]
  · have hid : Trim (values.Get "id") "[]" ≠ "" := by
      intro ht
      rw [(Trim_brackets_eq_empty_iff _).mp ht] at h
      exact Bool.noConfusion h
    rw [WebStoreUpdateExtension_run lib allExtensions r unescaped values hu hp hid]
    split <;> simp [writeXML]
  · have ht : Trim (values.Get "id") "[]" = mid := by
      rw [hsplit]; exact Trim_brackets_sandwich pre mid post hpre hpost hends
    have hid : Trim (values.Get "id") "[]" ≠ "" := by rw [ht]; exact hmid
    refine ⟨ht, fun hmiss => ?_, fun hhit => ?_⟩
    · rw [WebStoreUpdateExtension_run lib allExtensions r unescaped values hu hp hid, ht]
      simp [hmiss]
    · rw [WebStoreUpdateExtension_run lib allExtensions r unescaped values hu hp hid, ht]
      simp only [hhit, ne_eq, not_true_eq_false, if_false]
      exact ⟨_, rfl⟩

/-- Witness of C12: the `id` value `[abc]` is looked up as `abc`, and `abc`
missing from the catalog is redirected. -/
theorem WebStoreUpdateExtension_identifier_witness :
    Trim "[abc]" "[]" = "abc" ∧
      WebStoreUpdateExtension sampleCodec [{ ID := "xyz", Version := "2.0" }] {} =
        [Effect.Redirect
          ("https://clients2.google.com/service/update2/crx?" ++ "" ++ "&braveRedirect=true")
          StatusTemporaryRedirect] :=
  have h := (WebStoreUpdateExtension_identifier sampleCodec [{ ID := "xyz", Version := "2.0" }]
    {} "" [("id", ["[abc]"]), ("v", ["1.0"])] rfl rfl).2.2 "[" "abc" "]" (by decide)
    (by decide) (by decide) (by decide) (by decide)
  ⟨h.1, h.2.1 (by decide)⟩

/-! ## The batch response document -/

theorem renderResponse_root (doc : ResponseDocument) (hp : doc.Protocol = "3.1")
    (hs : doc.Server = "prod") :
    renderResponse doc =
      "<response protocol=\"3.1\" server=\"prod\">" ++
        (String.join (doc.Apps.map renderApp) ++ (if doc.Apps = [] then "" else "\n")) ++
        "</response>" := by
  have h1 : escapeText "3.1" = "3.1" := by decide
  have h2 : escapeText "prod" = "prod" := by decide
  have h3 : "<response protocol=\"" ++ "3.1" ++ "\" server=\"" ++ "prod" ++ "\">" =
      "<response protocol=\"3.1\" server=\"prod\">" := by decide
  simp only [renderResponse, hp, hs, h1, h2]
  rw [← h3]
  simp only [String.append_assoc]

theorem escapeChar_plain (c : Char) (h : needsEscape c = false) :
    escapeChar c = String.mk [c] := by
  simp only [needsEscape, Bool.or_eq_false_iff, decide_eq_false_iff_not,
    Bool.not_eq_false'] at h
  obtain ⟨⟨⟨⟨⟨⟨⟨⟨h1, h2⟩, h3⟩, h4⟩, h5⟩, h6⟩, h7⟩, h8⟩, h9⟩ := h
  simp [escapeChar, h1, h2, h3, h4, h5, h6, h7, h8, h9]

theorem escapeText_plain (s : String) (h : s.data.all (fun c => !needsEscape c) = true) :
    escapeText s = s := by
  apply String.ext
  simp only [escapeText, String.data_join, List.map_map]
  rw [List.all_eq_true] at h
  have key : ∀ l : List Char, (∀ c ∈ l, needsEscape c = false) →
      (l.map (String.data ∘ escapeChar)).flatten = l := by
    intro l
    induction l with
    | nil => intro _; rfl
    | cons c cs ih =>
      intro hl
      have hc := escapeChar_plain c (hl c (List.mem_cons_self _ _))
      simp only [List.map_cons, List.flatten_cons, Function.comp_apply, hc,
        ih (fun x hx => hl x (List.mem_cons_of_mem _ hx))]
      rfl
  exact key s.data (fun c hc => by simpa using h c hc)

theorem renderApp_responseApp (entry : Extension) :
    renderApp (responseApp entry) =
      "\n    <app appid=\"" ++ escapeText entry.ID ++ "\">" ++
      "\n        <updatecheck status=\"ok\">" ++
      "\n            <urls>" ++
      "\n                <url codebase=\"" ++ escapeText (entry.URL ++ entry.Title) ++
        "\"></url>" ++
      "\n            </urls>" ++
      "\n            <manifest version=\"" ++ escapeText entry.Version ++ "\">" ++
      "\n                <packages>" ++
      "\n                    <package name=\"" ++ escapeText (packageName entry.Version) ++
        "\" hash_sha256=\"" ++ escapeText entry.SHA256 ++
        "\" required=\"true\"></package>" ++
      "\n                </packages>" ++
      "\n            </manifest>" ++
      "\n        </updatecheck>" ++
      "\n    </app>" := by
  have hok : escapeText "ok" = "ok" := by decide
  have htrue : escapeText "true" = "true" := by decide
  have hA : ∀ R : String, "\n        <updatecheck status=\"" ++ ("ok" ++ ("\">" ++ R)) =
      "\n        <updatecheck status=\"ok\">" ++ R := by
    intro R
    rw [← String.append_assoc, ← String.append_assoc]
    exact congrArg (fun x => x ++ R) (by decide)
  have hB : ∀ R : String, "\" required=\"" ++ ("true" ++ ("\"></package>" ++ R)) =
      "\" required=\"true\"></package>" ++ R := by
    intro R
    rw [← String.append_assoc, ← String.append_assoc]
    exact congrArg (fun x => x ++ R) (by decide)
  simp only [renderApp, responseApp, hok, htrue, String.append_assoc, hA, hB]

/-- C16. Marshalling a batch response: the empty response marshals to exactly
`<response protocol="3.1" server="prod"></response>`; for every response the
marshalled text is the root with the same fixed protocol and server attributes
around one app element per entry, in list order, with the entry's ID as appid,
updatecheck status "ok", the entry's Version as manifest version, the entry's
SHA256 as package hash and required "true" (attribute values are written as
they are unless a character needs escaping); the two expected documents of the
marshalling test are reproduced. -/
theorem MarshalUpdateResponse_spec (updateResponse : UpdateResponse) :
    MarshalUpdateResponse [] = .ok "<response protocol=\"3.1\" server=\"prod\"></response>" ∧
      (∃ codebase name : Extension → String, ∀ response : UpdateResponse,
        MarshalUpdateResponse response =
          .ok ("<response protocol=\"3.1\" server=\"prod\">" ++
            String.join (response.map (fun entry =>
              "\n    <app appid=\"" ++ escapeText entry.ID ++ "\">" ++
              "\n        <updatecheck status=\"ok\">" ++
              "\n            <urls>" ++
              "\n                <url codebase=\"" ++ escapeText (codebase entry) ++
                "\"></url>" ++
              "\n            </urls>" ++
              "\n            <manifest version=\"" ++ escapeText entry.Version ++ "\">" ++
              "\n                <packages>" ++
              "\n                    <package name=\"" ++ escapeText (name entry) ++
                "\" hash_sha256=\"" ++ escapeText entry.SHA256 ++
                "\" required=\"true\"></package>" ++
              "\n                </packages>" ++
              "\n            </manifest>" ++
              "\n        </updatecheck>" ++
              "\n    </app>")) ++
            (if response = [] then "" else "\n") ++ "</response>")) ∧
      (∀ value : String, value.data.all (fun c => !needsEscape c) = true →
        escapeText value = value) ∧
      (responseDocument updateResponse).Protocol = "3.1" ∧
      (responseDocument updateResponse).Server = "prod" ∧
      (responseDocument updateResponse).Apps.length = updateResponse.length ∧
      (responseDocument updateResponse).Apps.map (fun app => app.AppID) =
        updateResponse.map (fun extension => extension.ID) ∧
      (responseDocument updateResponse).Apps.map (fun app => app.UpdateCheck.Status) =
        updateResponse.map (fun _ => "ok") ∧
      (responseDocument updateResponse).Apps.map (fun app => app.UpdateCheck.Manifest.Version) =
        updateResponse.map (fun extension => extension.Version) ∧
      (responseDocument updateResponse).Apps.map
          (fun app => app.UpdateCheck.Manifest.Package.SHA256) =
        updateResponse.map (fun extension => extension.SHA256) ∧
      (responseDocument updateResponse).Apps.map
          (fun app => app.UpdateCheck.Manifest.Package.Required) =
        updateResponse.map (fun _ => "true") ∧
      MarshalUpdateResponse [darkThemeExtension] = .ok expectedDarkThemeXML ∧
      MarshalUpdateResponse [lightThemeExtension, darkThemeExtension] =
        .ok expectedTwoThemesXML := by
  refine ⟨congrArg Except.ok (by decide!),
    ⟨fun entry => entry.URL ++ entry.Title, fun entry => packageName entry.Version,
      fun response => congrArg Except.ok ?_⟩,
    escapeText_plain, rfl, rfl, ?_, ?_, ?_, ?_, ?_, ?_, congrArg Except.ok (by decide!),
    congrArg Except.ok (by decide!)⟩
  · rw [renderResponse_root (responseDocument response) rfl rfl]
    have hmap : (responseDocument response).Apps.map renderApp =
        response.map (fun entry => renderApp (responseApp entry)) := by
      simp [responseDocument, Function.comp_def]
    have hnil : ((responseDocument response).Apps = []) ↔ (response = []) := by
      simp [responseDocument]
    rw [hmap]
    simp only [renderApp_responseApp, hnil, String.append_assoc]
  all_goals simp [responseDocument, responseApp, Function.comp_def]

/-! ## The batch request document -/

end GoUpdate
